import Mathlib

/-!
Verification of the `diff` CLI (Rust, `src/main.rs`).

The program has two subcommands: `Get` (diff two inputs — literal text,
files, or a program driven by a TOML test suite) and `Example` (emit a
placeholder test-suite document).  The diff computation itself is
delegated to the external crate `diff_match_patch_rs` (`dmp.diff_main`
over chars), which is not part of this repository's sources; following
the specification (§4.1) it is modelled here as an LCS-based edit
script over character lists.  Everything else (the harness loop, the
argument handling, the filesystem-dependent subcommands) is embedded
from `src/main.rs` directly, with the filesystem and the child-process
environment passed explicitly.
-/

namespace DiffCli

/-- Operation tags of a diff, mirroring `diff_match_patch_rs::Ops`
(`Delete`, `Equal`, `Insert`). -/
inductive Ops where
  | Delete : Ops
  | Equal : Ops
  | Insert : Ops
deriving DecidableEq

/-- One diff operation, mirroring `Diff<char>`: a tag (`op()`) and the
character run it covers (`data()`). -/
structure Diff where
  op : Ops
  data : List Char
deriving DecidableEq

/-- Length of a longest common subsequence of two character lists.
Auxiliary to the modelled diff engine. -/
def lcsLen : List Char → List Char → Nat
  | [], _ => 0
  | _ :: _, [] => 0
  | a :: l, b :: r =>
      if a = b then lcsLen l r + 1
      else max (lcsLen l (b :: r)) (lcsLen (a :: l) r)

/-- Prepend the character `a` as Equal text, merging with a leading
Equal operation so shared runs stay in one operation. -/
def consEqual (a : Char) : List Diff → List Diff
  | [] => [⟨Ops.Equal, [a]⟩]
  | d :: ds =>
      if d.op = Ops.Equal then ⟨Ops.Equal, a :: d.data⟩ :: ds
      else ⟨Ops.Equal, [a]⟩ :: d :: ds

/-- Prepend the character `a` as Delete text, merging with a leading
Delete operation. -/
def consDelete (a : Char) : List Diff → List Diff
  | [] => [⟨Ops.Delete, [a]⟩]
  | d :: ds =>
      if d.op = Ops.Delete then ⟨Ops.Delete, a :: d.data⟩ :: ds
      else ⟨Ops.Delete, [a]⟩ :: d :: ds

/-- Prepend the character `b` as Insert text, merging with a leading
Insert operation. -/
def consInsert (b : Char) : List Diff → List Diff
  | [] => [⟨Ops.Insert, [b]⟩]
  | d :: ds =>
      if d.op = Ops.Insert then ⟨Ops.Insert, b :: d.data⟩ :: ds
      else ⟨Ops.Insert, [b]⟩ :: d :: ds

/-- Modelled from the spec: the diff engine `dmp.diff_main::<Compat>`
of the external crate `diff_match_patch_rs` is not part of this
repository's sources.  Per spec §4.1 it is a longest-common-subsequence
style edit script over Unicode scalar values: shared characters become
Equal runs, the remaining characters of the left input become Delete
runs and those of the right input Insert runs, adjacent operations of
one kind merged. -/
def diffChars : List Char → List Char → List Diff
  | [], [] => []
  | [], b :: r => [⟨Ops.Insert, b :: r⟩]
  | a :: l, [] => [⟨Ops.Delete, a :: l⟩]
  | a :: l, b :: r =>
      if a = b then consEqual a (diffChars l r)
      else if lcsLen (a :: l) r ≤ lcsLen l (b :: r) then
        consDelete a (diffChars l (b :: r))
      else consInsert b (diffChars (a :: l) r)

/-- The transcript of `fn diff(left, right)` (src/main.rs:127-130) on
string inputs: the engine run over the characters of the two strings. -/
def diffMain (left right : String) : List Diff :=
  diffChars left.data right.data

/-- Concatenated text of the Equal and Delete operations of a
transcript: the side that must reconstruct the left input. -/
def sourceText : List Diff → List Char
  | [] => []
  | d :: ds => (if d.op = Ops.Insert then [] else d.data) ++ sourceText ds

/-- Concatenated text of the Equal and Insert operations of a
transcript: the side that must reconstruct the right input. -/
def targetText : List Diff → List Char
  | [] => []
  | d :: ds => (if d.op = Ops.Delete then [] else d.data) ++ targetText ds

/-- A test case, mirroring `struct Test` (src/main.rs:90-96): four
optional text fields deserialized from the suite document. -/
structure Test where
  note : Option String
  args : Option String
  input : Option String
  out : Option String
deriving DecidableEq

/-- The child-process argument list built by `.args(&test.args)`
(src/main.rs:177): iterating a `&Option<String>` yields the whole
string as one item when present and nothing when absent, so the
scripted text reaches the child as a single argument. -/
def spawn_args (t : Test) : List String := t.args.toList

/-- Whitespace tokenisation of a character list, dropping empty
tokens; `acc` holds the characters of the current token reversed. -/
def splitWsAux : List Char → List Char → List String
  | [], acc => if acc = [] then [] else [String.mk acc.reverse]
  | c :: cs, acc =>
      if c.isWhitespace then
        (if acc = [] then [] else [String.mk acc.reverse]) ++ splitWsAux cs []
      else splitWsAux cs (c :: acc)

/-- The spec's words (§4.4) for argument resolution, stated only to be
compared with `spawn_args`, which embeds the code: split the scripted
argument text on whitespace into separate tokens, with empty or absent
args giving no arguments. -/
def args_whitespace_split (t : Test) : List String :=
  splitWsAux (t.args.getD "").data []

/-- A byte of captured stdout. -/
abbrev Byte := Fin 256

/-- The Unicode replacement character U+FFFD, the placeholder that
lossy decoding substitutes for invalid byte sequences. -/
def replacementChar : Char := '�'

/-- State of the incremental UTF-8 decoder: either between scalar
values, or inside a multi-byte sequence expecting `k` more bytes, the
next of which must lie in `[lo, hi]`, with `acc` the bits read so far. -/
inductive Utf8State where
  | start : Utf8State
  | need : Nat → Nat → Nat → Nat → Utf8State
deriving DecidableEq

/-- Decoder action on one byte at the beginning of a sequence: either
a one-byte scalar, the opening byte of a 2-4 byte sequence with the
constraint for its first continuation byte, or an invalid byte, in
which case the replacement character is emitted and the `Bool` flag
records the substitution. -/
def utf8InitStep (b : Byte) : List Char × Utf8State × Bool :=
  if b.val < 0x80 then ([Char.ofNat b.val], Utf8State.start, false)
  else if 0xC2 ≤ b.val ∧ b.val ≤ 0xDF then
    ([], Utf8State.need 1 0x80 0xBF (b.val - 0xC0), false)
  else if b.val = 0xE0 then ([], Utf8State.need 2 0xA0 0xBF 0, false)
  else if b.val = 0xED then ([], Utf8State.need 2 0x80 0x9F 0xD, false)
  else if 0xE1 ≤ b.val ∧ b.val ≤ 0xEF then
    ([], Utf8State.need 2 0x80 0xBF (b.val - 0xE0), false)
  else if b.val = 0xF0 then ([], Utf8State.need 3 0x90 0xBF 0, false)
  else if b.val = 0xF4 then ([], Utf8State.need 3 0x80 0x8F 4, false)
  else if 0xF1 ≤ b.val ∧ b.val ≤ 0xF3 then
    ([], Utf8State.need 3 0x80 0xBF (b.val - 0xF0), false)
  else ([replacementChar], Utf8State.start, true)

/-- Decoder action on one byte in an arbitrary state.  Inside a
sequence, a byte in the expected range extends or completes the scalar;
a byte outside it ends the invalid sequence with a replacement
character (flagged) and is then reconsidered as an initial byte. -/
def utf8Step (s : Utf8State) (b : Byte) : List Char × Utf8State × Bool :=
  match s with
  | Utf8State.start => utf8InitStep b
  | Utf8State.need k lo hi acc =>
      if lo ≤ b.val ∧ b.val ≤ hi then
        if k ≤ 1 then ([Char.ofNat (acc * 64 + (b.val - 0x80))], Utf8State.start, false)
        else ([], Utf8State.need (k - 1) 0x80 0xBF (acc * 64 + (b.val - 0x80)), false)
      else (replacementChar :: (utf8InitStep b).1, (utf8InitStep b).2.1, true)

/-- Run the decoder over a byte list, emitting the decoded characters;
an input ending inside a sequence ends with a replacement character. -/
def lossyRun : Utf8State → List Byte → List Char
  | s, [] => if s = Utf8State.start then [] else [replacementChar]
  | s, b :: bs => (utf8Step s b).1 ++ lossyRun (utf8Step s b).2.1 bs

/-- Run the decoder as a validator: `true` iff no step substituted a
replacement character and the input did not end mid-sequence. -/
def validRun : Utf8State → List Byte → Bool
  | s, [] => s == Utf8State.start
  | s, b :: bs => !(utf8Step s b).2.2 && validRun (utf8Step s b).2.1 bs

/-- Modelled from the spec: `String::from_utf8_lossy` (std, not part of
this repository's sources) converts captured stdout bytes to text,
replacing any invalid encoding with U+FFFD rather than failing
(spec §4.3, §7). -/
def lossyDecode (bs : List Byte) : List Char := lossyRun Utf8State.start bs

/-- A byte list is valid UTF-8 iff the decoder accepts it without any
substitution. -/
def validUtf8 (bs : List Byte) : Bool := validRun Utf8State.start bs

/-- The environment a program-mode run interacts with, standing in for
the operating system: whether spawning the child for a given case
succeeds, and the stdout bytes the child produces for that case. -/
structure Env where
  spawnOk : Test → Bool
  stdout : Test → List Byte

/-- The banner printed before a case runs (src/main.rs:170-173): the
case's note, or "test!" when the note is absent. -/
def noteOf (t : Test) : String := t.note.getD "test!"

/-- The captured stdout of a case converted for diffing
(`String::from_utf8_lossy(&output.stdout)`, src/main.rs:191). -/
def actualText (env : Env) (t : Test) : String := ⟨lossyDecode (env.stdout t)⟩

/-- What one successfully spawned case reports: its banner and the
diff transcript printed for it. -/
structure Report where
  note : String
  result : List Diff
deriving DecidableEq

/-- One program-mode case after a successful spawn (src/main.rs:180-195):
diff the expected output `test.out.unwrap_or("")` against the captured
stdout decoded lossily. -/
def run_case (env : Env) (t : Test) : Report :=
  ⟨noteOf t, diffMain (t.out.getD "") (actualText env t)⟩

/-- The program-mode loop over the suite (src/main.rs:169-196).  Cases
run in definition order; a successful spawn yields the case's report; a
failed spawn hits `.expect("Failed to spawn child process")`, which
panics: no report for that case, and no later case runs.  The `Bool`
records whether the run panicked. -/
def run_suite (env : Env) : List Test → List Report × Bool
  | [] => ([], false)
  | t :: ts =>
      if env.spawnOk t then
        ((run_case env t) :: (run_suite env ts).1, (run_suite env ts).2)
      else ([], true)

/-- A three-case suite, first member. -/
def caseA : Test := ⟨some "case1", none, none, none⟩

/-- A three-case suite, second member. -/
def caseB : Test := ⟨some "case2", none, none, none⟩

/-- A three-case suite, third member. -/
def caseC : Test := ⟨some "case3", none, none, none⟩

/-- An environment in which exactly the spawn for `caseB` fails and
every child writes nothing to stdout. -/
def envSpawnFail : Env := ⟨fun t => t.note != some "case2", fun _ => []⟩

/-- An environment in which every spawn succeeds and every child
writes nothing to stdout. -/
def envQuiet : Env := ⟨fun _ => true, fun _ => []⟩

/-- A case with stdin scripted but no expected output. -/
def caseNoOut : Test := ⟨none, none, some "x", none⟩

/-- An environment whose children emit the lone byte 0xFF, which is
invalid UTF-8. -/
def envBadUtf8 : Env := ⟨fun _ => true, fun _ => [255]⟩

/-- A case with every field absent. -/
def caseAny : Test := ⟨none, none, none, none⟩

/-- A filesystem, standing in for `std::fs`: the readable text content
of each path, or `none` where reading fails. -/
abbrev FS := String → Option String

/-- One serialized entry of the example document
(`serialize_test_data`, src/main.rs:145-157): the TOML rendering of the
placeholder `Test`. -/
def testEntryToml : String :=
  "[[tests]]\nnote = \"test\"\nargs = \"arguments\"\ninput = \"input\"\nout = \"output\"\n"

/-- Function `serialize_test_data(number)` (src/main.rs:145-157): the document
holding `number` copies of the placeholder entry. -/
def serialize_test_data (number : Nat) : String :=
  String.join (List.replicate number testEntryToml)

/-- Observable outcome of the `Example` subcommand. -/
inductive ExOutcome where
  | printedDoc (doc : String)
  | wroteFile (path : String)
  | panicked (msg : String)
deriving DecidableEq

/-- The `Example` subcommand (src/main.rs:254-268): serialize the
placeholder suite; with no path, print it; with a path, create the file
only if it does not yet exist (`File::create_new`) and write the
document, else panic with a message naming the file and leave the
filesystem untouched. -/
def example_cmd (fs : FS) (count : Nat) (path : Option String) : FS × ExOutcome :=
  let data := serialize_test_data count
  match path with
  | none => (fs, ExOutcome.printedDoc data)
  | some file =>
      match fs file with
      | some _ => (fs, ExOutcome.panicked
          ("This " ++ file ++ " file already exists. Only creating a new file is allowed."))
      | none => (fun p => if p = file then some data else fs p, ExOutcome.wroteFile file)

/-- Error type of the external diff crate as seen by `fn diff`. -/
inductive DmpError where
  | internalError
deriving DecidableEq

/-- Function `diff` (src/main.rs:127-130): wraps the engine in a `Result`;
per spec §4.1 the engine does not fail on any valid character-sequence
input, so the result is always `ok`. -/
def diff (left right : String) : Except DmpError (List Diff) :=
  Except.ok (diffMain left right)

/-- Error type `DiffFilesError` (src/main.rs:76-81). -/
inductive DiffFilesError where
  | Diff (e : DmpError)
  | LeftRead
  | RightRead
  | BothRead
deriving DecidableEq

/-- Function `files_diff` (src/main.rs:132-143) over an explicit filesystem:
read both paths and diff the contents, with the source's error
selection (`RightRead` when only the right read fails, `BothRead` when
both fail, `LeftRead` when only the left fails). -/
def files_diff (fs : FS) (left right : String) : Except DiffFilesError (List Diff) :=
  match fs left, fs right with
  | some l, some r => (diff l r).mapError DiffFilesError.Diff
  | some _, none => Except.error DiffFilesError.RightRead
  | none, none => Except.error DiffFilesError.BothRead
  | none, some _ => Except.error DiffFilesError.LeftRead

/-- Observable outcome of `Get` with the mode option omitted: which
diff was printed, or a panic. -/
inductive GetOutcome where
  | fromFiles (d : List Diff)
  | fromText (d : List Diff)
  | panicked
deriving DecidableEq

/-- The `Get` subcommand with `mode: None` (src/main.rs:243-253): try
`files_diff` on the two arguments first; on any error fall back to
diffing the raw argument text; panic only if that also errors. -/
def get_mode_none (fs : FS) (left right : String) : GetOutcome :=
  match files_diff fs left right with
  | Except.ok o => GetOutcome.fromFiles o
  | Except.error _ =>
      match diff left right with
      | Except.ok o => GetOutcome.fromText o
      | Except.error _ => GetOutcome.panicked

/-- A filesystem with a single readable file `suite.toml`. -/
def fsOne : FS := fun p => if p = "suite.toml" then some "old" else none

/-- A filesystem with two readable files `a.txt` and `b.txt`. -/
def fsBoth : FS :=
  fun p => if p = "a.txt" then some "x" else if p = "b.txt" then some "y" else none

theorem sourceText_consEqual (a : Char) (ds : List Diff) :
    sourceText (consEqual a ds) = a :: sourceText ds := by
  cases ds with
  | nil => simp [consEqual, sourceText]
  | cons d ds =>
      by_cases h : d.op = Ops.Equal
      · simp [consEqual, h, sourceText]
      · simp [consEqual, h, sourceText]

theorem targetText_consEqual (a : Char) (ds : List Diff) :
    targetText (consEqual a ds) = a :: targetText ds := by
  cases ds with
  | nil => simp [consEqual, targetText]
  | cons d ds =>
      by_cases h : d.op = Ops.Equal
      · simp [consEqual, h, targetText]
      · simp [consEqual, h, targetText]

theorem sourceText_consDelete (a : Char) (ds : List Diff) :
    sourceText (consDelete a ds) = a :: sourceText ds := by
  cases ds with
  | nil => simp [consDelete, sourceText]
  | cons d ds =>
      by_cases h : d.op = Ops.Delete
      · simp [consDelete, h, sourceText]
      · simp [consDelete, h, sourceText]

theorem targetText_consDelete (a : Char) (ds : List Diff) :
    targetText (consDelete a ds) = targetText ds := by
  cases ds with
  | nil => simp [consDelete, targetText]
  | cons d ds =>
      by_cases h : d.op = Ops.Delete
      · simp [consDelete, h, targetText]
      · simp [consDelete, h, targetText]

theorem sourceText_consInsert (b : Char) (ds : List Diff) :
    sourceText (consInsert b ds) = sourceText ds := by
  cases ds with
  | nil => simp [consInsert, sourceText]
  | cons d ds =>
      by_cases h : d.op = Ops.Insert
      · simp [consInsert, h, sourceText]
      · simp [consInsert, h, sourceText]

theorem targetText_consInsert (b : Char) (ds : List Diff) :
    targetText (consInsert b ds) = b :: targetText ds := by
  cases ds with
  | nil => simp [consInsert, targetText]
  | cons d ds =>
      by_cases h : d.op = Ops.Insert
      · simp [consInsert, h, targetText]
      · simp [consInsert, h, targetText]

theorem sourceText_diffChars (l r : List Char) : sourceText (diffChars l r) = l := by
  induction l, r using diffChars.induct with
  | case1 => simp [diffChars, sourceText]
  | case2 b r => simp [diffChars, sourceText]
  | case3 a l => simp [diffChars, sourceText]
  | case4 l b r ih => simp [diffChars, sourceText_consEqual, ih]
  | case5 a l b r hne hle ih => simp [diffChars, hne, hle, sourceText_consDelete, ih]
  | case6 a l b r hne hle ih => simp [diffChars, hne, hle, sourceText_consInsert, ih]

theorem targetText_diffChars (l r : List Char) : targetText (diffChars l r) = r := by
  induction l, r using diffChars.induct with
  | case1 => simp [diffChars, targetText]
  | case2 b r => simp [diffChars, targetText]
  | case3 a l => simp [diffChars, targetText]
  | case4 l b r ih => simp [diffChars, targetText_consEqual, ih]
  | case5 a l b r hne hle ih => simp [diffChars, hne, hle, targetText_consDelete, ih]
  | case6 a l b r hne hle ih => simp [diffChars, hne, hle, targetText_consInsert, ih]

/-- C1: for every pair of inputs, the transcript of the diff
computation reconstructs both sides: concatenating the text of its
Equal and Delete operations in order yields exactly the left input, and
concatenating the text of its Equal and Insert operations in order
yields exactly the right input. -/
theorem diff_reconstruction (left right : String) :
    sourceText (diffMain left right) = left.data ∧
    targetText (diffMain left right) = right.data :=
  ⟨sourceText_diffChars left.data right.data, targetText_diffChars left.data right.data⟩

theorem diffChars_self (l : List Char) (h : l ≠ []) :
    diffChars l l = [⟨Ops.Equal, l⟩] := by
  induction l with
  | nil => exact absurd rfl h
  | cons a l ih =>
      cases l with
      | nil => simp [diffChars, consEqual]
      | cons c cs =>
          have hrec := ih (by simp)
          simp [diffChars, hrec, consEqual]

/-- C5: the diff of any non-empty character sequence with itself is a
single Equal operation covering the whole sequence; the diff of the
empty sequence with itself is the empty transcript. -/
theorem diff_identity (s : String) :
    (s ≠ "" → diffMain s s = [⟨Ops.Equal, s.data⟩]) ∧ diffMain "" "" = [] := by
  constructor
  · intro h
    have hd : s.data ≠ [] := fun hl => h (String.ext (by simp [hl]))
    exact diffChars_self s.data hd
  · simp [diffMain, diffChars]

/-- Witness for C5 at the concrete inputs "ab" and "". -/
theorem diff_identity_witness :
    diffMain "ab" "ab" = [⟨Ops.Equal, "ab".data⟩] ∧ diffMain "" "" = [] :=
  ⟨(diff_identity "ab").1 (by decide), (diff_identity "").2⟩

theorem mem_consEqual_ne_nil (a : Char) (ds : List Diff) (e : Diff)
    (hmem : e ∈ consEqual a ds) (h : ∀ d ∈ ds, d.data ≠ []) : e.data ≠ [] := by
  cases ds with
  | nil =>
      simp [consEqual] at hmem
      simp [hmem]
  | cons d ds =>
      by_cases hop : d.op = Ops.Equal
      · simp [consEqual, hop] at hmem
        rcases hmem with hmem | hmem
        · simp [hmem]
        · exact h e (List.mem_cons_of_mem d hmem)
      · simp [consEqual, hop] at hmem
        rcases hmem with hmem | hmem | hmem
        · simp [hmem]
        · simp only [hmem]
          exact h d (List.mem_cons_self d ds)
        · exact h e (List.mem_cons_of_mem d hmem)

theorem mem_consDelete_ne_nil (a : Char) (ds : List Diff) (e : Diff)
    (hmem : e ∈ consDelete a ds) (h : ∀ d ∈ ds, d.data ≠ []) : e.data ≠ [] := by
  cases ds with
  | nil =>
      simp [consDelete] at hmem
      simp [hmem]
  | cons d ds =>
      by_cases hop : d.op = Ops.Delete
      · simp [consDelete, hop] at hmem
        rcases hmem with hmem | hmem
        · simp [hmem]
        · exact h e (List.mem_cons_of_mem d hmem)
      · simp [consDelete, hop] at hmem
        rcases hmem with hmem | hmem | hmem
        · simp [hmem]
        · simp only [hmem]
          exact h d (List.mem_cons_self d ds)
        · exact h e (List.mem_cons_of_mem d hmem)

theorem mem_consInsert_ne_nil (b : Char) (ds : List Diff) (e : Diff)
    (hmem : e ∈ consInsert b ds) (h : ∀ d ∈ ds, d.data ≠ []) : e.data ≠ [] := by
  cases ds with
  | nil =>
      simp [consInsert] at hmem
      simp [hmem]
  | cons d ds =>
      by_cases hop : d.op = Ops.Insert
      · simp [consInsert, hop] at hmem
        rcases hmem with hmem | hmem
        · simp [hmem]
        · exact h e (List.mem_cons_of_mem d hmem)
      · simp [consInsert, hop] at hmem
        rcases hmem with hmem | hmem | hmem
        · simp [hmem]
        · simp only [hmem]
          exact h d (List.mem_cons_self d ds)
        · exact h e (List.mem_cons_of_mem d hmem)

theorem mem_diffChars_ne_nil (l r : List Char) :
    ∀ e ∈ diffChars l r, e.data ≠ [] := by
  induction l, r using diffChars.induct with
  | case1 => simp [diffChars]
  | case2 b r => simp [diffChars]
  | case3 a l => simp [diffChars]
  | case4 l b r ih =>
      intro e he
      rw [diffChars] at he
      simp at he
      exact mem_consEqual_ne_nil b (diffChars l r) e he ih
  | case5 a l b r hne hle ih =>
      intro e he
      rw [diffChars] at he
      simp [hne, hle] at he
      exact mem_consDelete_ne_nil a (diffChars l (b :: r)) e he ih
  | case6 a l b r hne hle ih =>
      intro e he
      rw [diffChars] at he
      simp [hne, hle] at he
      exact mem_consInsert_ne_nil b (diffChars (a :: l) r) e he ih

/-- C6: for every pair of inputs, no operation in the transcript
produced by the diff computation carries empty text. -/
theorem diff_no_empty_ops (left right : String) :
    (diffMain left right).all (fun d => !d.data.isEmpty) = true := by
  rw [List.all_eq_true]
  intro d hd
  have := mem_diffChars_ne_nil left.data right.data d hd
  simpa [List.isEmpty_iff] using this

/-- C2 counterexample: in the three-case suite where only case 2's
spawn fails, the run panics (`.expect("Failed to spawn child
process")`, src/main.rs:178-179) after a single report — case 1's — so
case 3 never executes and produces no report, contrary to the claim. -/
theorem run_suite_aborts_on_spawn_failure :
    (run_suite envSpawnFail [caseA, caseB, caseC]).1.length = 1 ∧
    (run_suite envSpawnFail [caseA, caseB, caseC]).2 = true := by
  constructor
  · simp [run_suite, envSpawnFail, caseA, caseB, caseC]
  · simp [run_suite, envSpawnFail, caseA, caseB, caseC]

/-- C2 amended: a spawn failure of one case's program invocation
panics and aborts the suite: every case before the failing one
executes and produces its report, and neither the failing case nor any
later case produces one. -/
theorem run_suite_spawn_abort (env : Env) (pre : List Test) (t : Test) (ts : List Test)
    (hpre : ∀ u ∈ pre, env.spawnOk u = true) (ht : env.spawnOk t = false) :
    run_suite env (pre ++ t :: ts) = (pre.map (run_case env), true) := by
  induction pre with
  | nil => simp [run_suite, ht]
  | cons p ps ih =>
      have hp : env.spawnOk p = true := hpre p (List.mem_cons_self p ps)
      have hrest := ih (fun u hu => hpre u (List.mem_cons_of_mem p hu))
      simp [run_suite, hp, hrest]

/-- Witness for the amended C2 at the concrete three-case suite. -/
theorem run_suite_spawn_abort_witness :
    run_suite envSpawnFail ([caseA] ++ caseB :: [caseC]) =
      ([caseA].map (run_case envSpawnFail), true) :=
  run_suite_spawn_abort envSpawnFail [caseA] caseB [caseC] (by decide) (by decide)

/-- C3 counterexample: the case text "a b" reaches the child as the
single argument "a b", not as the two whitespace-split tokens the
claim states; and an empty args text yields one empty argument, not
none. -/
theorem spawn_args_not_whitespace_split :
    spawn_args ⟨none, some "a b", none, none⟩ ≠
      args_whitespace_split ⟨none, some "a b", none, none⟩ ∧
    spawn_args ⟨none, some "", none, none⟩ ≠ [] := by
  constructor
  · decide
  · decide

/-- C3 amended: the case's args text, when present, is passed to the
child as one single argument without any splitting (so an empty args
text yields one empty argument); an absent args field results in the
child being invoked with no arguments. -/
theorem spawn_args_single_argument (n i o : Option String) (s : String) :
    spawn_args ⟨n, some s, i, o⟩ = [s] ∧ spawn_args ⟨n, none, i, o⟩ = [] :=
  ⟨rfl, rfl⟩

/-- C7: a case whose expected-output field is absent is compared with
the expected side taken as empty text (`test.out.unwrap_or("")`,
src/main.rs:190). -/
theorem run_case_absent_expected (env : Env) (t : Test) (h : t.out = none) :
    run_case env t = ⟨noteOf t, diffMain "" (actualText env t)⟩ := by
  simp [run_case, h]

/-- Witness for C7 at a concrete case without expected output. -/
theorem run_case_absent_expected_witness :
    run_case envQuiet caseNoOut =
      ⟨noteOf caseNoOut, diffMain "" (actualText envQuiet caseNoOut)⟩ :=
  run_case_absent_expected envQuiet caseNoOut rfl

theorem utf8Step_flag_mem (s : Utf8State) (b : Byte)
    (h : (utf8Step s b).2.2 = true) : replacementChar ∈ (utf8Step s b).1 := by
  cases s with
  | start =>
      simp only [utf8Step, utf8InitStep] at h ⊢
      split_ifs at h ⊢
      all_goals simp_all
  | need k lo hi acc =>
      simp only [utf8Step] at h ⊢
      split_ifs at h ⊢
      all_goals simp_all

theorem validRun_false_mem (bs : List Byte) : ∀ s : Utf8State,
    validRun s bs = false → replacementChar ∈ lossyRun s bs := by
  induction bs with
  | nil =>
      intro s h
      simp [validRun] at h
      simp [lossyRun, h]
  | cons b bs ih =>
      intro s h
      simp only [validRun, Bool.and_eq_false_iff, Bool.not_eq_false'] at h
      simp only [lossyRun, List.mem_append]
      rcases h with h | h
      · exact Or.inl (utf8Step_flag_mem s b h)
      · exact Or.inr (ih _ h)

/-- C8: the harness's conversion of captured stdout bytes to text is
total — every case gets a text to diff — and whenever the bytes are
not valid UTF-8 the resulting text contains the U+FFFD placeholder. -/
theorem lossy_conversion_placeholder (env : Env) (t : Test)
    (h : validUtf8 (env.stdout t) = false) :
    replacementChar ∈ (actualText env t).data :=
  validRun_false_mem (env.stdout t) Utf8State.start h

/-- Witness for C8 at a child emitting the invalid byte 0xFF. -/
theorem lossy_conversion_placeholder_witness :
    replacementChar ∈ (actualText envBadUtf8 caseAny).data :=
  lossy_conversion_placeholder envBadUtf8 caseAny (by decide)

/-- C9: the Example subcommand with a path refuses to write when the
file already exists — it panics with a message naming the file and the
filesystem is returned unchanged — and writes the serialized document
only when the file is newly created. -/
theorem example_cmd_create_new (fs : FS) (count : Nat) (file : String) :
    (∀ c, fs file = some c →
        example_cmd fs count (some file) = (fs, ExOutcome.panicked
          ("This " ++ file ++
            " file already exists. Only creating a new file is allowed."))) ∧
    (fs file = none →
        (example_cmd fs count (some file)).1 file = some (serialize_test_data count) ∧
        (example_cmd fs count (some file)).2 = ExOutcome.wroteFile file) := by
  constructor
  · intro c hc
    simp [example_cmd, hc]
  · intro hn
    simp [example_cmd, hn]

/-- Witness for C9: an existing `suite.toml` is refused and a fresh
`fresh.toml` is written. -/
theorem example_cmd_create_new_witness :
    example_cmd fsOne 1 (some "suite.toml") = (fsOne, ExOutcome.panicked
      ("This " ++ "suite.toml" ++
        " file already exists. Only creating a new file is allowed.")) ∧
    ((example_cmd fsOne 1 (some "fresh.toml")).1 "fresh.toml" =
        some (serialize_test_data 1) ∧
      (example_cmd fsOne 1 (some "fresh.toml")).2 = ExOutcome.wroteFile "fresh.toml") :=
  ⟨(example_cmd_create_new fsOne 1 "suite.toml").1 "old" rfl,
   (example_cmd_create_new fsOne 1 "fresh.toml").2 rfl⟩

/-- C10: `Get` with the mode option omitted first attempts the
file-to-file diff; when that succeeds its transcript is the one
printed (so no fallback occurs), and exactly when it fails — for any
of its error cases — the two arguments are diffed as literal text. -/
theorem get_mode_none_fallback (fs : FS) (left right : String) :
    (∀ d, files_diff fs left right = Except.ok d →
        get_mode_none fs left right = GetOutcome.fromFiles d) ∧
    (∀ e, files_diff fs left right = Except.error e →
        get_mode_none fs left right = GetOutcome.fromText (diffMain left right)) := by
  constructor
  · intro d hd
    simp [get_mode_none, hd]
  · intro e he
    simp [get_mode_none, he, diff]

/-- Witness for C10: with both files readable the file diff is
printed; with both unreadable the literal-text diff is printed. -/
theorem get_mode_none_fallback_witness :
    get_mode_none fsBoth "a.txt" "b.txt" = GetOutcome.fromFiles (diffMain "x" "y") ∧
    get_mode_none fsBoth "m1" "m2" = GetOutcome.fromText (diffMain "m1" "m2") :=
  ⟨(get_mode_none_fallback fsBoth "a.txt" "b.txt").1 (diffMain "x" "y") rfl,
   (get_mode_none_fallback fsBoth "m1" "m2").2 DiffFilesError.BothRead rfl⟩

end DiffCli
